import Mathlib

/-!
Verification of the selection/indexing and store logic of the `changeDir`
directory-bookmarking tool (src/src/main.rs), shallowly embedded in Lean.

Paths are modelled as `String`s (the tool compares `PathBuf`s by exact
equality, which on the textual level is string equality of the stored
lines).  File I/O is factored out: each store-mutating operation is
modelled as a pure function from the loaded store contents to the store
contents it saves (or leaves untouched), together with the process exit
code the corresponding code path produces.
-/

namespace ChangeDir

abbrev Path := String

/-- MAX_BOOKMARKS from main.rs line 7. -/
def MAX_BOOKMARKS : Nat := 36

/-- Transcribes `get_prefix_char` (main.rs lines 232-240): indices 0-9 map
to the decimal digits, 10-35 to the lowercase letters, anything else to
the sentinel character. -/
def get_prefix_char (index : Nat) : Char :=
  if index < 10 then Char.ofNat (48 + index)
  else if index < 36 then Char.ofNat (97 + (index - 10))
  else Char.ofNat 63

/-- Transcribes `get_index_from_char` (main.rs lines 242-248): the Rust
ranges `'0'..='9'` and `'a'..='z'` are code-point ranges, written here over
`Char.toNat` (48-57 and 97-122). -/
def get_index_from_char (ch : Char) : Option Nat :=
  if 48 ≤ ch.toNat ∧ ch.toNat ≤ 57 then some (ch.toNat - 48)
  else if 97 ≤ ch.toNat ∧ ch.toNat ≤ 122 then some (10 + (ch.toNat - 97))
  else none

/-- Transcribes `add_to_history` (main.rs lines 151-174) as a pure function
from the loaded history to the history it saves: `retain(|p| p != &path)`,
`insert(0, path)`, then `truncate(10)` guarded by `len() > 10`. -/
def add_to_history (path : Path) (history : List Path) : List Path :=
  let history := history.filter (fun p => p != path)
  let history := path :: history
  if history.length > 10 then history.take 10 else history

/-- The history produced by a whole sequence of visits applied in order to
an initially empty history store (each navigation action calls
`add_to_history` on the previously saved contents). -/
def record_visits (paths : List Path) : List Path :=
  paths.foldl (fun h p => add_to_history p h) []

/-- Transcribes the history filter shared by `list_bookmarks` (lines
182-186), `choose_directory_interactive` (lines 312-316) and
`choose_directory_by_letter` (lines 408-412): history entries already
present in the bookmarks are dropped. -/
def filtered_history (bookmarks history : List Path) : List Path :=
  history.filter (fun hist_dir => !(bookmarks.contains hist_dir))

/-- The unified addressable list: bookmarks take indices `0..bookmarks.length`
and the filtered history continues at `start_index = bookmarks.len()`
(lines 196-227), which is exactly the concatenation below. -/
def buildUnified (bookmarks history : List Path) : List Path :=
  bookmarks ++ filtered_history bookmarks history

/-- The `[index] path` lines printed by `list_bookmarks` (lines 196-227)
and by the display part of `choose_directory_interactive` (lines 326-357):
every bookmark with its position, then each filtered-history entry at
`bookmarks.len() + i`, kept only under the `index < 36` guard. -/
def rendered_entries (bookmarks history : List Path) : List (Nat × Path) :=
  let filtered := filtered_history bookmarks history
  let start_index := bookmarks.length
  bookmarks.enum ++
    filtered.enum.filterMap (fun p =>
      let index := start_index + p.1
      if index < 36 then some (index, p.2) else none)

/-- Failure modes of the two choose code paths.  `noEntries` is the
`total_items == 0` early exit, `invalidChar` the `get_index_from_char`
`None` branch (debug message "Invalid character"), `outOfRange` the failed
bounds checks (debug message "Index N out of range"); every one of them
ends in `std::process::exit(1)`. -/
inductive SelError
  | noEntries
  | invalidChar
  | outOfRange
deriving DecidableEq

/-- Transcribes `choose_directory_by_letter` (main.rs lines 402-453) minus
the I/O: the resolution of `letter` against the loaded bookmarks and
history.  `letter.chars().next()` is the head of the string. -/
def choose_directory_by_letter (bookmarks history : List Path)
    (letter : String) : Except SelError Path :=
  let filtered := filtered_history bookmarks history
  let total_items := bookmarks.length + filtered.length
  if total_items = 0 then .error .noEntries
  else
    match letter.toList.head? with
    | none => .error .invalidChar
    | some ch =>
      match get_index_from_char ch with
      | none => .error .invalidChar
      | some index =>
        if h : index < bookmarks.length then .ok (bookmarks.get ⟨index, h⟩)
        else if index < total_items ∧ index < 36 then
          if h2 : index - bookmarks.length < filtered.length then
            .ok (filtered.get ⟨index - bookmarks.length, h2⟩)
          else .error .outOfRange
        else .error .outOfRange

/-- Transcribes `choose_directory_interactive` (main.rs lines 306-400)
minus the I/O: the line read from stdin is trimmed and its first character
resolved by the same nested checks, duplicated in the source. -/
def choose_directory_interactive (bookmarks history : List Path)
    (input : String) : Except SelError Path :=
  let filtered := filtered_history bookmarks history
  let total_items := bookmarks.length + filtered.length
  if total_items = 0 then .error .noEntries
  else
    match input.trim.toList.head? with
    | none => .error .invalidChar
    | some ch =>
      match get_index_from_char ch with
      | none => .error .invalidChar
      | some index =>
        if h : index < bookmarks.length then .ok (bookmarks.get ⟨index, h⟩)
        else if index < total_items ∧ index < 36 then
          if h2 : index - bookmarks.length < filtered.length then
            .ok (filtered.get ⟨index - bookmarks.length, h2⟩)
          else .error .outOfRange
        else .error .outOfRange

/-- Exit code of a choose code path: every `.error` branch reaches
`std::process::exit(1)`, the `.ok` branches return `Ok(())` and the
process ends with code 0. -/
def sel_exit_code : Except SelError Path → Nat
  | .ok _ => 0
  | .error _ => 1

/-- Outcome of `bookmark_current`: already-present paths produce a warning
and `Ok(())` without saving; a full store reaches `exit(1)` before saving;
otherwise the path is pushed and the store saved. -/
inductive BookmarkResult
  | duplicate
  | capacityExceeded
  | added (bookmarks : List Path)
deriving DecidableEq

/-- Transcribes `bookmark_current` (main.rs lines 250-271) as a function
of the loaded bookmarks and the current directory: the duplicate check
(line 255) runs before the `len() >= MAX_BOOKMARKS` check (line 262), and
a successful add pushes `current_dir` at the end. -/
def bookmark_current (bookmarks : List Path) (current_dir : Path) :
    BookmarkResult :=
  if bookmarks.any (fun b => b == current_dir) then .duplicate
  else if bookmarks.length ≥ MAX_BOOKMARKS then .capacityExceeded
  else .added (bookmarks ++ [current_dir])

/-- Exit code of `bookmark_current`: only the capacity branch calls
`std::process::exit(1)`; the duplicate warning returns `Ok(())`. -/
def bookmark_exit_code : BookmarkResult → Nat
  | .duplicate => 0
  | .capacityExceeded => 1
  | .added _ => 0

/-- The bookmark store as left on disk by `bookmark_current`:
`save_bookmarks` runs only on the `.added` path. -/
def bookmarks_after (bookmarks : List Path) : BookmarkResult → List Path
  | .added new => new
  | _ => bookmarks

/-- Outcome of the back action. -/
inductive BackResult
  | emptyHistory
  | missingTarget (p : Path)
  | ok (p : Path)
deriving DecidableEq

/-- Transcribes `change_to_previous` (main.rs lines 455-476): the loaded
history and the filesystem-existence test decide the outcome, and the
second component is the history store as the function leaves it on disk
(the function never calls `add_to_history` or `save_history`, it only
writes the target file). -/
def change_to_previous (history : List Path) (dirExists : Path → Bool) :
    BackResult × List Path :=
  match history with
  | [] => (.emptyHistory, history)
  | previous :: _ =>
    if dirExists previous then (.ok previous, history)
    else (.missingTarget previous, history)

/-- Exit code of `change_to_previous`: the empty-history and
no-longer-exists branches call `std::process::exit(1)`. -/
def back_exit_code : BackResult → Nat
  | .emptyHistory => 1
  | .missingTarget _ => 1
  | .ok _ => 0

/-! ## Helper lemmas -/

theorem any_beq_eq_mem (l : List Path) (a : Path) :
    l.any (fun b => b == a) = decide (a ∈ l) := by
  by_cases h : a ∈ l
  · simp [h, List.any_eq_true]
  · simp [h, List.any_eq_true]
    intro x hx hxa
    exact h (hxa ▸ hx)

theorem filtered_history_eq (bms hist : List Path) :
    filtered_history bms hist = hist.filter (fun p => decide (p ∉ bms)) := by
  unfold filtered_history
  apply List.filter_congr
  intro p _
  simp

theorem unified_length (bms hist : List Path) :
    (buildUnified bms hist).length
      = bms.length + (filtered_history bms hist).length :=
  List.length_append _ _

theorem get_index_from_char_lt_36 (c : Char) (i : Nat)
    (h : get_index_from_char c = some i) : i < 36 := by
  unfold get_index_from_char at h
  split at h
  · next hc => injection h with h; omega
  · split at h
    · next hc => injection h with h; omega
    · exact absurd h (by simp)

theorem singleton_head (c : Char) : (String.singleton c).toList.head? = some c := rfl

theorem add_to_history_length_le (p : Path) (h : List Path) :
    (add_to_history p h).length ≤ 10 := by
  unfold add_to_history
  dsimp only
  split
  · simp
  · omega

theorem add_to_history_head (p : Path) (h : List Path) :
    (add_to_history p h).head? = some p := by
  unfold add_to_history
  dsimp only
  split
  · rw [show (10 : Nat) = 9 + 1 from rfl, List.take_succ_cons]
    rfl
  · rfl

theorem add_to_history_nodup (p : Path) (h : List Path) (hn : h.Nodup) :
    (add_to_history p h).Nodup := by
  unfold add_to_history
  dsimp only
  have hfn : (h.filter (fun q => q != p)).Nodup := hn.filter _
  have hpn : p ∉ h.filter (fun q => q != p) := by
    intro hmem
    have := List.of_mem_filter hmem
    simp at this
  have hcons : (p :: h.filter (fun q => q != p)).Nodup :=
    List.nodup_cons.mpr ⟨hpn, hfn⟩
  split
  · exact (List.take_sublist _ _).nodup hcons
  · exact hcons

theorem record_visits_append (ps : List Path) (p : Path) :
    record_visits (ps ++ [p]) = add_to_history p (record_visits ps) := by
  unfold record_visits
  rw [List.foldl_append]
  rfl

theorem record_visits_nodup (ps : List Path) : (record_visits ps).Nodup := by
  suffices hgen : ∀ (qs : List Path) (init : List Path), init.Nodup →
      (qs.foldl (fun h p => add_to_history p h) init).Nodup by
    exact hgen ps [] List.nodup_nil
  intro qs
  induction qs with
  | nil => intro init hi; exact hi
  | cons q qs ih =>
    intro init hi
    exact ih _ (add_to_history_nodup q init hi)

theorem choose_by_letter_ok (bms hist : List Path) (c : Char) (i : Nat)
    (hsome : get_index_from_char c = some i)
    (hlt : i < (buildUnified bms hist).length) :
    choose_directory_by_letter bms hist (String.singleton c) =
      .ok ((buildUnified bms hist).get ⟨i, hlt⟩) := by
  have h36 := get_index_from_char_lt_36 c i hsome
  have hlen := unified_length bms hist
  unfold choose_directory_by_letter
  dsimp only
  rw [if_neg (by omega), singleton_head]
  dsimp only
  rw [hsome]
  dsimp only
  split
  · next hb =>
    have hq : (buildUnified bms hist).get? i = bms.get? i := List.get?_append hb
    rw [List.get?_eq_get hlt, List.get?_eq_get hb] at hq
    injection hq with hq
    rw [hq]
  · next hb =>
    rw [if_pos (by constructor <;> omega)]
    have h2 : i - bms.length < (filtered_history bms hist).length := by omega
    rw [dif_pos h2]
    have hq : (buildUnified bms hist).get? i =
        (filtered_history bms hist).get? (i - bms.length) :=
      List.get?_append_right (by omega)
    rw [List.get?_eq_get hlt, List.get?_eq_get h2] at hq
    injection hq with hq
    rw [hq]

theorem choose_by_letter_oor (bms hist : List Path) (c : Char) (i : Nat)
    (hne : (buildUnified bms hist).length ≠ 0)
    (hsome : get_index_from_char c = some i)
    (hge : (buildUnified bms hist).length ≤ i) :
    choose_directory_by_letter bms hist (String.singleton c)
      = .error .outOfRange := by
  have hlen := unified_length bms hist
  unfold choose_directory_by_letter
  dsimp only
  rw [if_neg (by omega), singleton_head]
  dsimp only
  rw [hsome]
  dsimp only
  rw [dif_neg (by omega), if_neg (by omega)]

theorem choose_by_letter_invalid (bms hist : List Path) (c : Char)
    (hne : (buildUnified bms hist).length ≠ 0)
    (hnone : get_index_from_char c = none) :
    choose_directory_by_letter bms hist (String.singleton c)
      = .error .invalidChar := by
  have hlen := unified_length bms hist
  unfold choose_directory_by_letter
  dsimp only
  rw [if_neg (by omega), singleton_head]
  dsimp only
  rw [hnone]

theorem choose_by_letter_ok_inv (bms hist : List Path) (letter : String)
    (s : Path) (h : choose_directory_by_letter bms hist letter = .ok s) :
    ∃ i, i < 36 ∧ (buildUnified bms hist).get? i = some s := by
  unfold choose_directory_by_letter at h
  dsimp only at h
  split at h
  · exact absurd h (by simp)
  · split at h
    · exact absurd h (by simp)
    · next ch hch =>
      split at h
      · exact absurd h (by simp)
      · next index hidx =>
        split at h
        · next hb =>
          injection h with h
          refine ⟨index, get_index_from_char_lt_36 ch index hidx, ?_⟩
          rw [buildUnified, List.get?_append hb, List.get?_eq_get hb, h]
        · next hb =>
          split at h
          · next hcond =>
            split at h
            · next h2 =>
              injection h with h
              refine ⟨index, hcond.2, ?_⟩
              rw [buildUnified, List.get?_append_right (by omega),
                List.get?_eq_get h2, h]
            · exact absurd h (by simp)
          · exact absurd h (by simp)

/-! ## Claim theorems -/

/-- C1: the unified addressable list is the bookmark list (original order)
followed by the history entries not present in the bookmarks (original
history order); its length is `bookmarks.length` plus the count of history
entries not in the bookmarks; and bookmarks `[/a, /b]` with history
`[/c, /a]` yield exactly `[/a, /b, /c]`. -/
theorem unified_list_spec (bms hist : List Path) :
    buildUnified bms hist = bms ++ hist.filter (fun p => decide (p ∉ bms))
    ∧ (buildUnified bms hist).length
        = bms.length + hist.countP (fun p => decide (p ∉ bms))
    ∧ buildUnified ["/a", "/b"] ["/c", "/a"] = ["/a", "/b", "/c"] := by
  refine ⟨by rw [buildUnified, filtered_history_eq], ?_, by decide⟩
  rw [buildUnified, filtered_history_eq, List.length_append,
    List.countP_eq_length_filter]

/-- C2: for every index `i < 36`, converting `i` to its selection
character with `get_prefix_char` and back with `get_index_from_char`
yields `i` again. -/
theorem selection_char_round_trip (i : Nat) (h : i < 36) :
    get_index_from_char (get_prefix_char i) = some i := by
  interval_cases i <;> decide

/-- Witness for C2 at the boundary index 35 (selection character is the
letter z). -/
theorem selection_char_round_trip_check :
    35 < 36 ∧ get_index_from_char (get_prefix_char 35) = some 35 :=
  ⟨by decide, selection_char_round_trip 35 (by decide)⟩

/-- C3: after any sequence of `add_to_history` calls on an initially empty
history store, the store after the last call holds at most 10 entries,
contains no duplicate paths, and has the most recently visited path at
index 0.  Every intermediate state is covered because the earlier calls
range over an arbitrary list. -/
theorem history_store_invariant (ps : List Path) (p : Path) :
    (record_visits (ps ++ [p])).length ≤ 10
    ∧ (record_visits (ps ++ [p])).Nodup
    ∧ (record_visits (ps ++ [p])).head? = some p := by
  rw [record_visits_append]
  exact ⟨add_to_history_length_le p _,
    add_to_history_nodup p _ (record_visits_nodup ps),
    add_to_history_head p _⟩

/-- C4: `add_to_history p h` is exactly the list obtained by removing
every entry equal to `p` from `h`, consing `p` at the front and keeping
the first 10 entries; and visiting `/x`, `/y`, `/x` from an empty store
yields `[/x, /y]`. -/
theorem record_visit_spec (h : List Path) (p : Path) :
    add_to_history p h = (p :: h.filter (fun q => decide (q ≠ p))).take 10
    ∧ record_visits ["/x", "/y", "/x"] = ["/x", "/y"] := by
  refine ⟨?_, by decide⟩
  unfold add_to_history
  have hfe : h.filter (fun q => q != p) = h.filter (fun q => decide (q ≠ p)) := by
    apply List.filter_congr
    intro q _
    by_cases hq : q = p <;> simp [hq]
  rw [hfe]
  dsimp only
  split
  · rfl
  · next hle =>
    rw [List.take_of_length_le]
    omega

/-- C5: against a non-empty unified list, a character that is not a digit
or lowercase letter fails as an invalid selection with exit code 1; a
character whose index is at least the list length (or at least 36) fails
out of range with exit code 1; a character whose index is inside the list
selects the entry at that index.  Concretely, resolving the letter z
against a 3-entry list fails out of range and resolving an exclamation
mark fails as an invalid character. -/
theorem resolve_selection_spec (bms hist : List Path) (c : Char)
    (hne : buildUnified bms hist ≠ []) :
    (get_index_from_char c = none →
      choose_directory_by_letter bms hist (String.singleton c)
          = .error .invalidChar
      ∧ sel_exit_code
          (choose_directory_by_letter bms hist (String.singleton c)) = 1)
    ∧ (∀ i, get_index_from_char c = some i →
        ((buildUnified bms hist).length ≤ i ∨ 36 ≤ i) →
      choose_directory_by_letter bms hist (String.singleton c)
          = .error .outOfRange
      ∧ sel_exit_code
          (choose_directory_by_letter bms hist (String.singleton c)) = 1)
    ∧ (∀ i (hsome : get_index_from_char c = some i)
        (hlt : i < (buildUnified bms hist).length),
      choose_directory_by_letter bms hist (String.singleton c)
          = .ok ((buildUnified bms hist).get ⟨i, hlt⟩))
    ∧ choose_directory_by_letter ["/a", "/b", "/c"] [] "z" = .error .outOfRange
    ∧ choose_directory_by_letter ["/a", "/b", "/c"] [] "!" = .error .invalidChar := by
  have hne0 : (buildUnified bms hist).length ≠ 0 := by
    intro h0
    exact hne (List.length_eq_zero.mp h0)
  refine ⟨?_, ?_, ?_, rfl, rfl⟩
  · intro hnone
    have hres := choose_by_letter_invalid bms hist c hne0 hnone
    exact ⟨hres, by rw [hres]; rfl⟩
  · intro i hsome hcase
    rcases hcase with hge | h36
    · have hres := choose_by_letter_oor bms hist c i hne0 hsome hge
      exact ⟨hres, by rw [hres]; rfl⟩
    · exact absurd (get_index_from_char_lt_36 c i hsome) (by omega)
  · intro i hsome hlt
    exact choose_by_letter_ok bms hist c i hsome hlt

/-- Witness for C5 at the 3-entry list with the character z. -/
theorem resolve_selection_spec_check :
    buildUnified ["/a", "/b", "/c"] [] ≠ []
    ∧ ((get_index_from_char 'z' = none →
      choose_directory_by_letter ["/a", "/b", "/c"] [] (String.singleton 'z')
          = .error .invalidChar
      ∧ sel_exit_code
          (choose_directory_by_letter ["/a", "/b", "/c"] [] (String.singleton 'z')) = 1)
    ∧ (∀ i, get_index_from_char 'z' = some i →
        ((buildUnified ["/a", "/b", "/c"] []).length ≤ i ∨ 36 ≤ i) →
      choose_directory_by_letter ["/a", "/b", "/c"] [] (String.singleton 'z')
          = .error .outOfRange
      ∧ sel_exit_code
          (choose_directory_by_letter ["/a", "/b", "/c"] [] (String.singleton 'z')) = 1)
    ∧ (∀ i (hsome : get_index_from_char 'z' = some i)
        (hlt : i < (buildUnified ["/a", "/b", "/c"] []).length),
      choose_directory_by_letter ["/a", "/b", "/c"] [] (String.singleton 'z')
          = .ok ((buildUnified ["/a", "/b", "/c"] []).get ⟨i, hlt⟩))
    ∧ choose_directory_by_letter ["/a", "/b", "/c"] [] "z" = .error .outOfRange
    ∧ choose_directory_by_letter ["/a", "/b", "/c"] [] "!" = .error .invalidChar) :=
  ⟨by decide, resolve_selection_spec ["/a", "/b", "/c"] [] 'z' (by decide)⟩

/-- C6: adding the current directory to the bookmark store is a non-fatal
no-op when the directory is already present (exit code 0, store
unchanged), fails fatally when a distinct path is added to a store holding
36 entries (exit code 1, store unchanged), and otherwise appends the path
at the end of the saved store.  The last conjunct is the concrete
capacity scenario: a full store of 36 distinct entries and a distinct
37th path. -/
theorem bookmark_add_spec (bms : List Path) (cur : Path) :
    (cur ∈ bms →
      bookmark_current bms cur = .duplicate
      ∧ bookmark_exit_code (bookmark_current bms cur) = 0
      ∧ bookmarks_after bms (bookmark_current bms cur) = bms)
    ∧ (cur ∉ bms → MAX_BOOKMARKS ≤ bms.length →
      bookmark_current bms cur = .capacityExceeded
      ∧ bookmark_exit_code (bookmark_current bms cur) = 1
      ∧ bookmarks_after bms (bookmark_current bms cur) = bms)
    ∧ (cur ∉ bms → bms.length < MAX_BOOKMARKS →
      bookmark_current bms cur = .added (bms ++ [cur])
      ∧ bookmark_exit_code (bookmark_current bms cur) = 0
      ∧ bookmarks_after bms (bookmark_current bms cur) = bms ++ [cur])
    ∧ bookmark_current
        ["/d0", "/d1", "/d2", "/d3", "/d4", "/d5", "/d6", "/d7", "/d8",
         "/d9", "/d10", "/d11", "/d12", "/d13", "/d14", "/d15", "/d16",
         "/d17", "/d18", "/d19", "/d20", "/d21", "/d22", "/d23", "/d24",
         "/d25", "/d26", "/d27", "/d28", "/d29", "/d30", "/d31", "/d32",
         "/d33", "/d34", "/d35"] "/d36" = .capacityExceeded := by
  refine ⟨?_, ?_, ?_, by decide⟩
  · intro hdup
    have h1 : bookmark_current bms cur = .duplicate := by
      unfold bookmark_current
      rw [any_beq_eq_mem, if_pos (decide_eq_true hdup)]
    exact ⟨h1, by rw [h1]; rfl, by rw [h1]; rfl⟩
  · intro hdup hfull
    have h1 : bookmark_current bms cur = .capacityExceeded := by
      unfold bookmark_current
      rw [any_beq_eq_mem, if_neg (by simp [hdup]), if_pos hfull]
    exact ⟨h1, by rw [h1]; rfl, by rw [h1]; rfl⟩
  · intro hdup hroom
    have h1 : bookmark_current bms cur = .added (bms ++ [cur]) := by
      unfold bookmark_current
      rw [any_beq_eq_mem, if_neg (by simp [hdup]), if_neg (by omega)]
    exact ⟨h1, by rw [h1]; rfl, by rw [h1]; rfl⟩

/-- C7: the back action fails with exit code 1 on an empty history, fails
with exit code 1 when the most recent entry no longer exists on the
filesystem, emits the most recent entry on success, and in every case
leaves the history store exactly as it was loaded (it never calls
`add_to_history`). -/
theorem back_action_spec (hist : List Path) (ex : Path → Bool) :
    (hist = [] →
      (change_to_previous hist ex).1 = .emptyHistory
      ∧ back_exit_code (change_to_previous hist ex).1 = 1)
    ∧ (∀ p t, hist = p :: t → ex p = false →
      (change_to_previous hist ex).1 = .missingTarget p
      ∧ back_exit_code (change_to_previous hist ex).1 = 1)
    ∧ (∀ p t, hist = p :: t → ex p = true →
      (change_to_previous hist ex).1 = .ok p
      ∧ back_exit_code (change_to_previous hist ex).1 = 0)
    ∧ (change_to_previous hist ex).2 = hist := by
  refine ⟨?_, ?_, ?_, ?_⟩
  · intro h
    subst h
    exact ⟨rfl, rfl⟩
  · intro p t h hex
    subst h
    simp [change_to_previous, hex, back_exit_code]
  · intro p t h hex
    subst h
    simp [change_to_previous, hex, back_exit_code]
  · rcases hist with _ | ⟨p, t⟩
    · rfl
    · by_cases hex : ex p <;> simp [change_to_previous, hex]

/-- C8: when the bookmark store holds at most 36 entries, every rendered
line of the list and choose displays carries an index below 36, every
selection character maps to an index below 36, and a successful selection
always returns an entry sitting at an index below 36 of the unified
list. -/
theorem addressing_cap_spec (bms hist : List Path) (c : Char) (s : Path)
    (hb : bms.length ≤ 36) :
    (∀ e ∈ rendered_entries bms hist, e.1 < 36)
    ∧ (∀ i, get_index_from_char c = some i → i < 36)
    ∧ (choose_directory_by_letter bms hist (String.singleton c) = .ok s →
        ∃ i, i < 36 ∧ (buildUnified bms hist).get? i = some s) := by
  refine ⟨?_, fun i hi => get_index_from_char_lt_36 c i hi,
    fun h => choose_by_letter_ok_inv bms hist (String.singleton c) s h⟩
  intro e he
  unfold rendered_entries at he
  dsimp only at he
  rw [List.mem_append] at he
  cases he with
  | inl h =>
    have hmem := List.mem_enum_iff_get?.mp h
    have hlt : e.1 < bms.length := by
      rw [List.get?_eq_getElem?] at hmem
      exact (List.getElem?_eq_some.mp hmem).1
    omega
  | inr h =>
    rcases List.mem_filterMap.mp h with ⟨a, _, hfa⟩
    split at hfa
    · next hidx =>
      injection hfa with hfa
      rw [← hfa]
      exact hidx
    · exact absurd hfa (by simp)

/-- Witness for C8 with one bookmark, one history entry and the selection
character 1 (which picks the history entry). -/
theorem addressing_cap_spec_check :
    (["/a"] : List Path).length ≤ 36
    ∧ ((∀ e ∈ rendered_entries ["/a"] ["/b"], e.1 < 36)
    ∧ (∀ i, get_index_from_char '1' = some i → i < 36)
    ∧ (choose_directory_by_letter ["/a"] ["/b"] (String.singleton '1') = .ok "/b" →
        ∃ i, i < 36 ∧ (buildUnified ["/a"] ["/b"]).get? i = some "/b")) :=
  ⟨by decide, addressing_cap_spec ["/a"] ["/b"] '1' "/b" (by decide)⟩

/-- C9: the interactive choose path and the explicit-character choose path
run the same resolution on the loaded stores: on every input the
interactive path resolves exactly as the by-letter path resolves the
trimmed input (trimming being how the interactive path extracts the
selection character from the line it reads), so both select the same
directory or fail identically. -/
theorem choose_paths_agree (bms hist : List Path) (input : String) :
    choose_directory_interactive bms hist input
      = choose_directory_by_letter bms hist input.trim := rfl

/-- C10: a duplicate bookmark is reported with exit code 0 and an
unchanged store even when the store already holds 36 or more entries: the
duplicate check of `bookmark_current` runs before the capacity check. -/
theorem duplicate_check_precedes_capacity (bms : List Path) (cur : Path)
    (hdup : cur ∈ bms) (hfull : 36 ≤ bms.length) :
    bookmark_current bms cur = .duplicate
    ∧ bookmark_exit_code (bookmark_current bms cur) = 0
    ∧ bookmarks_after bms (bookmark_current bms cur) = bms := by
  have h1 : bookmark_current bms cur = .duplicate := by
    unfold bookmark_current
    rw [any_beq_eq_mem, if_pos (decide_eq_true hdup)]
  exact ⟨h1, by rw [h1]; rfl, by rw [h1]; rfl⟩

/-- Witness for C10 on a store of 36 entries that already contains the
current directory. -/
theorem duplicate_check_precedes_capacity_check :
    ("/a" ∈ List.replicate 36 ("/a" : Path))
    ∧ 36 ≤ (List.replicate 36 ("/a" : Path)).length
    ∧ (bookmark_current (List.replicate 36 ("/a" : Path)) "/a" = .duplicate
    ∧ bookmark_exit_code
        (bookmark_current (List.replicate 36 ("/a" : Path)) "/a") = 0
    ∧ bookmarks_after (List.replicate 36 ("/a" : Path))
        (bookmark_current (List.replicate 36 ("/a" : Path)) "/a")
          = List.replicate 36 ("/a" : Path)) :=
  ⟨by decide, by decide,
    duplicate_check_precedes_capacity (List.replicate 36 ("/a" : Path)) "/a"
      (by decide) (by decide)⟩

end ChangeDir
